import Mathlib

/-!
Verification of the generational slot-based object pool from
src/memory/ObjectPool.hpp (struct yks::ObjectPool).

The pool state is embedded shallowly: the three std::vector fields become
Lean lists, size_t becomes Nat (with the constant SIZE_MAX = 2^64 - 1 used
by the code as the free-list / not-found sentinel), and each member
function becomes a pure Lean function on the state.  Out-of-bounds vector
reads, which are undefined behavior in C++, are modelled by List.getD with
a fixed default value.
-/

set_option autoImplicit false

namespace Yks

/-- Modelled from the spec: the repository source under src/ does not
contain Handle.hpp, only its user ObjectPool.hpp.  Per spec section 3 a
Handle is a value type with two fields, an index into the roster and a
generation counter.  The generation counter width is left open by the
spec (section 7 and section 9 treat overflow as out of scope), so both
fields are modelled as Nat. -/
structure Handle where
  index : Nat
  generation : Nat
deriving DecidableEq, Repr

/-- The value of the C SIZE_MAX constant for the 64-bit size_t used by the
code as the free-list terminator and the not-found sentinel. -/
def SIZE_MAX : Nat := 2 ^ 64 - 1

/-- Modelled from the spec: the default constructor Handle() (defined in
the missing Handle.hpp) produces the invalid sentinel handle; per spec
section 3 a default handle uses a sentinel index value that can never be
produced by a real allocation, so it is always invalid. -/
def Handle.invalid : Handle := ⟨SIZE_MAX, 0⟩

/-- Default value used for modelled out-of-bounds roster reads. -/
def dfltH : Handle := ⟨0, 0⟩

/-- State of yks::ObjectPool from src/memory/ObjectPool.hpp: the free-list
head, the roster of slots (the code reuses the Handle struct for roster
entries), the dense value storage, and the back-mapping pool_indices. -/
structure ObjectPool (T : Type) where
  first_free_index : Nat
  roster : List Handle
  pool : List T
  pool_indices : List Nat
deriving DecidableEq, Repr

namespace ObjectPool

variable {T : Type}

/-- The default-constructed pool: first_free_index = SIZE_MAX, all three
vectors empty. -/
def empty (T : Type) : ObjectPool T :=
  { first_free_index := SIZE_MAX, roster := [], pool := [], pool_indices := [] }

/-- ObjectPool::expand_roster: push a new roster entry whose link is the
old free-list head and whose generation is 0, and make it the head. -/
def expand_roster (p : ObjectPool T) : ObjectPool T :=
  let new_entry : Handle := ⟨p.first_free_index, 0⟩
  { p with
    first_free_index := p.roster.length
    roster := p.roster ++ [new_entry] }

/-- ObjectPool::emplace: expand the roster if the free list is exhausted,
pop the free-list head, point the popped slot at the end of dense storage,
append the value and the back-mapping entry, and return a handle made of
the slot index and its current generation. -/
def emplace (p : ObjectPool T) (v : T) : Handle × ObjectPool T :=
  let p1 := if p.roster.length ≤ p.first_free_index then p.expand_roster else p
  let roster_index := p1.first_free_index
  let entry := p1.roster.getD roster_index dfltH
  let q : ObjectPool T :=
    { first_free_index := entry.index
      roster := p1.roster.set roster_index ⟨p1.pool.length, entry.generation⟩
      pool := p1.pool ++ [v]
      pool_indices := p1.pool_indices ++ [roster_index] }
  (⟨roster_index, entry.generation⟩, q)

/-- ObjectPool::isValid: the handle index is within roster bounds and the
stored generation matches the handle generation. -/
def isValid (p : ObjectPool T) (h : Handle) : Bool :=
  decide (h.index < p.roster.length) &&
    decide ((p.roster.getD h.index dfltH).generation = h.generation)

/-- ObjectPool::remove: no-op on an invalid handle; otherwise move the
last dense element into the removed position (updating the moved slot and
the back-mapping), shrink dense storage and back-mapping, bump the removed
slot generation and push the slot onto the free list. -/
def remove [Inhabited T] (p : ObjectPool T) (h : Handle) : ObjectPool T :=
  if p.isValid h then
    let roster_index := h.index
    let pool_index := (p.roster.getD roster_index dfltH).index
    let moved_roster_index := p.pool_indices.getLastD 0
    let moved_pool_index := p.pool.length - 1
    let roster1 := p.roster.set moved_roster_index
      ⟨pool_index, (p.roster.getD moved_roster_index dfltH).generation⟩
    let pool1 := (p.pool.set pool_index (p.pool.getD moved_pool_index default)).dropLast
    let pool_indices1 :=
      (p.pool_indices.set pool_index (p.pool_indices.getD moved_pool_index 0)).dropLast
    let roster2 := roster1.set roster_index
      ⟨p.first_free_index, (roster1.getD roster_index dfltH).generation + 1⟩
    { first_free_index := roster_index
      roster := roster2
      pool := pool1
      pool_indices := pool_indices1 }
  else p

/-- ObjectPool::operator[] (both overloads have identical semantics): a
pointer to the occupant on a valid handle, nullptr otherwise, modelled as
Option. -/
def access [Inhabited T] (p : ObjectPool T) (h : Handle) : Option T :=
  if p.isValid h then
    some (p.pool.getD (p.roster.getD h.index dfltH).index default)
  else
    none

/-- ObjectPool::makeHandle (the spec name is handleFor): the invalid
sentinel handle when the index is out of dense bounds, otherwise a handle
built from the dense index itself and the generation of the roster slot
found through the back-mapping. -/
def makeHandle (p : ObjectPool T) (index : Nat) : Handle :=
  if p.pool.length ≤ index then Handle.invalid
  else ⟨index, (p.roster.getD (p.pool_indices.getD index 0) dfltH).generation⟩

/-- ObjectPool::getPoolIndex (the spec name is slotPositionOf): the dense
index stored in the roster slot on a valid handle, SIZE_MAX otherwise. -/
def getPoolIndex (p : ObjectPool T) (h : Handle) : Nat :=
  if p.isValid h then (p.roster.getD h.index dfltH).index else SIZE_MAX

/-- The state of the pool after the roster-expansion guard at the top of
ObjectPool::emplace has run. -/
def grown (p : ObjectPool T) : ObjectPool T :=
  if p.roster.length ≤ p.first_free_index then p.expand_roster else p

end ObjectPool

/-- A call to the pool mutators: insert (ObjectPool::emplace) with a value
or remove (ObjectPool::remove) with a handle argument. -/
inductive Op (T : Type) where
  | insert (v : T)
  | remove (h : Handle)
deriving DecidableEq, Repr

/-- Apply one mutating call to the pool. -/
def applyOp {T : Type} [Inhabited T] (p : ObjectPool T) : Op T → ObjectPool T
  | .insert v => (p.emplace v).2
  | .remove h => p.remove h

/-- Apply a sequence of mutating calls, left to right. -/
def applyOps {T : Type} [Inhabited T] (p : ObjectPool T) (ops : List (Op T)) : ObjectPool T :=
  ops.foldl applyOp p

/-- The free list of the pool: starting from a given roster index, the
nodes visited by following the index links through the roster, each node
an unoccupied in-bounds slot visited exactly once, ending at the SIZE_MAX
sentinel (spec section 3, invariant 3). -/
inductive FreeChain (roster : List Handle) (occ : List Nat) : Nat → List Nat → Prop where
  | out : FreeChain roster occ SIZE_MAX []
  | step (n : Nat) (l : List Nat) : n < roster.length → n ∉ occ → n ∉ l →
      FreeChain roster occ (roster.getD n dfltH).index l →
      FreeChain roster occ n (n :: l)

/-- Structural well-formedness of a pool state: dense storage and the
back-mapping have equal length; each dense position's owning roster slot
is in bounds and points back at that position; the free list from
first_free_index is a well-formed chain of unoccupied slots; and the
roster length stays within the range of size_t. -/
structure Inv {T : Type} (p : ObjectPool T) : Prop where
  hlen : p.pool.length = p.pool_indices.length
  hocc : ∀ j, j < p.pool_indices.length →
    p.pool_indices.getD j 0 < p.roster.length ∧
      (p.roster.getD (p.pool_indices.getD j 0) dfltH).index = j
  hchain : ∃ l, FreeChain p.roster p.pool_indices p.first_free_index l
  hbound : p.roster.length ≤ SIZE_MAX

/-- Pool states reachable from the empty pool through the public API under
its resource model and caller contract: emplace is applied only while the
roster is below the size_t limit (spec section 7 treats exhaustion of the
backing storage, which happens long before 2^64 roster slots, as a fatal
allocation failure, not a reachable state), and remove is applied only to
handles that are invalid or whose slot currently holds an object, as is
the case for every handle the pool itself has issued.  The counterexample
theorems below show that dropping the latter restriction lets a
generation-colliding handle forged by the caller corrupt the pool. -/
inductive Reachable {T : Type} [Inhabited T] : ObjectPool T → Prop where
  | empty : Reachable (ObjectPool.empty T)
  | ins (p : ObjectPool T) (v : T) : Reachable p → p.roster.length < SIZE_MAX →
      Reachable (p.emplace v).2
  | rem (p : ObjectPool T) (h : Handle) : Reachable p →
      (p.isValid h = true → h.index ∈ p.pool_indices) →
      Reachable (p.remove h)

/-- Pool reached by inserting 1 and 2 and removing the first handle: the
remaining value 2 sits at dense position 0 and is owned by roster slot 1
(back-mapping [1]), while slot 0 is free at generation 1. -/
def poolAfterSwap : ObjectPool Nat :=
  ((((ObjectPool.empty Nat).emplace 1).2.emplace 2).2).remove ⟨0, 0⟩

/-- Pool reached by one insertion and one removal: empty dense storage,
slot 0 free at generation 1 with free-list link SIZE_MAX. -/
def poolFreedSlot : ObjectPool Nat :=
  ((ObjectPool.empty Nat).emplace 1).2.remove ⟨0, 0⟩

/-- Pool reached by five insertions and two removals: slots 0 and 1 are
free with free list 0 -> 1 -> SIZE_MAX, and three values remain in dense
storage, so slot 0's free-list link 1 is also a live dense position. -/
def poolTwoFree : ObjectPool Nat :=
  ((((((ObjectPool.empty Nat).emplace 1).2.emplace 2).2.emplace 3).2.emplace
    4).2.emplace 5).2.remove ⟨1, 0⟩ |>.remove ⟨0, 0⟩

/-- Pool reached by three insertions of 1, 2, 3: handles (0, 0), (1, 0)
and (2, 0). -/
def poolThree : ObjectPool Nat :=
  ((((ObjectPool.empty Nat).emplace 1).2.emplace 2).2.emplace 3).2

/-- A ten-call sequence whose seventh call removes the forged handle
(0, 1), which collides with the current generation of the free slot 0:
every vector access it performs is in bounds, yet it corrupts the free
list, after which slot 0 is handed out by two consecutive insertions. -/
def corruptingOps : List (Op Nat) :=
  [.insert 1, .insert 2, .insert 3, .insert 4, .remove ⟨1, 0⟩, .remove ⟨0, 0⟩,
    .remove ⟨0, 1⟩, .insert 5, .insert 6, .remove ⟨2, 0⟩]

section ListAux

variable {α : Type}

theorem getD_set_self (l : List α) (i : Nat) (a d : α) (h : i < l.length) :
    (l.set i a).getD i d = a := by
  rw [List.getD_eq_getElem _ _ (by simpa using h)]
  simp [List.getElem_set_self]

theorem getD_set_ne (l : List α) (i j : Nat) (a d : α) (h : i ≠ j) :
    (l.set i a).getD j d = l.getD j d := by
  simp [List.getD_eq_getElem?_getD, List.getElem?_set_ne h]

theorem getD_append_lt (l l2 : List α) (i : Nat) (d : α) (h : i < l.length) :
    (l ++ l2).getD i d = l.getD i d :=
  List.getD_append _ _ _ _ h

theorem getD_append_len (l : List α) (a d : α) :
    (l ++ [a]).getD l.length d = a := by
  rw [List.getD_append_right _ _ _ _ (Nat.le_refl _)]
  simp

theorem getD_mem (l : List α) (i : Nat) (d : α) (h : i < l.length) :
    l.getD i d ∈ l := by
  rw [List.getD_eq_getElem _ _ h]
  exact List.getElem_mem _

theorem getLastD_eq_getD (l : List α) (d : α) :
    l.getLastD d = l.getD (l.length - 1) d := by
  rw [List.getLastD_eq_getLast?, List.getLast?_eq_getElem?, List.getD_eq_getElem?_getD]

theorem getD_dropLast (l : List α) (i : Nat) (d : α) (h : i < l.length - 1) :
    l.dropLast.getD i d = l.getD i d := by
  rw [List.getD_eq_getElem _ _ (by simpa using h), List.getD_eq_getElem _ _ (by omega)]
  rw [List.getElem_dropLast]

/-- Setting an index to a value that keeps the generation stored there
leaves every generation in a roster unchanged. -/
theorem getD_set_gen_eq (l : List Handle) (m i k : Nat) :
    ((l.set m ⟨k, (l.getD m dfltH).generation⟩).getD i dfltH).generation =
      (l.getD i dfltH).generation := by
  by_cases him : m = i
  · subst him
    by_cases hm : m < l.length
    · rw [getD_set_self _ _ _ _ hm]
    · rw [List.set_eq_of_length_le (Nat.le_of_not_lt hm)]
  · rw [getD_set_ne _ _ _ _ _ him]

theorem mem_getD {α : Type} (l : List α) (a : α) (d : α) (ha : a ∈ l) :
    ∃ j, j < l.length ∧ l.getD j d = a := by
  obtain ⟨i, hi, heq⟩ := List.mem_iff_getElem.mp ha
  exact ⟨i, hi, by rw [List.getD_eq_getElem _ _ hi, heq]⟩

end ListAux

namespace ObjectPool

variable {T : Type}

theorem isValid_iff (p : ObjectPool T) (h : Handle) :
    p.isValid h = true ↔
      h.index < p.roster.length ∧
        (p.roster.getD h.index dfltH).generation = h.generation := by
  simp [isValid]

theorem isValid_eq_false_of_gen_ne (p : ObjectPool T) (h : Handle)
    (hg : (p.roster.getD h.index dfltH).generation ≠ h.generation) :
    p.isValid h = false := by
  cases hvb : p.isValid h
  · rfl
  · exact absurd ((isValid_iff p h).mp hvb).2 hg

theorem remove_of_invalid [Inhabited T] (p : ObjectPool T) (h : Handle)
    (hv : p.isValid h = false) : p.remove h = p := by
  simp [remove, hv]

theorem remove_first_free [Inhabited T] (p : ObjectPool T) (h : Handle)
    (hv : p.isValid h = true) : (p.remove h).first_free_index = h.index := by
  simp [remove, hv]

theorem remove_roster_length [Inhabited T] (p : ObjectPool T) (h : Handle) :
    (p.remove h).roster.length = p.roster.length := by
  by_cases hv : p.isValid h <;> simp [remove, hv]

theorem remove_roster_gen [Inhabited T] (p : ObjectPool T) (h : Handle)
    (hv : p.isValid h = true) (i : Nat) (hi : i ≠ h.index) :
    ((p.remove h).roster.getD i dfltH).generation =
      (p.roster.getD i dfltH).generation := by
  simp only [remove, hv, if_true]
  rw [getD_set_ne _ _ _ _ _ (fun e => hi e.symm), getD_set_gen_eq]

theorem remove_roster_gen_self [Inhabited T] (p : ObjectPool T) (h : Handle)
    (hv : p.isValid h = true) :
    ((p.remove h).roster.getD h.index dfltH).generation = h.generation + 1 := by
  have hlt : h.index < p.roster.length := ((isValid_iff p h).mp hv).1
  have hgen : (p.roster.getD h.index dfltH).generation = h.generation :=
    ((isValid_iff p h).mp hv).2
  simp only [remove, hv, if_true]
  rw [getD_set_self _ _ _ _ (by simpa using hlt)]
  show ((p.roster.set (p.pool_indices.getLastD 0)
      ⟨(p.roster.getD h.index dfltH).index,
        (p.roster.getD (p.pool_indices.getLastD 0) dfltH).generation⟩).getD
      h.index dfltH).generation + 1 = h.generation + 1
  rw [getD_set_gen_eq, hgen]

theorem isValid_remove_self [Inhabited T] (p : ObjectPool T) (h : Handle) :
    (p.remove h).isValid h = false := by
  by_cases hv : p.isValid h
  · exact isValid_eq_false_of_gen_ne _ _ (by rw [remove_roster_gen_self p h hv]; omega)
  · rw [remove_of_invalid p h (by simpa using hv)]
    simpa using hv

theorem emplace_unfold (p : ObjectPool T) (v : T) :
    p.emplace v =
      (⟨p.grown.first_free_index,
          (p.grown.roster.getD p.grown.first_free_index dfltH).generation⟩,
        { first_free_index := (p.grown.roster.getD p.grown.first_free_index dfltH).index
          roster := p.grown.roster.set p.grown.first_free_index
            ⟨p.grown.pool.length,
              (p.grown.roster.getD p.grown.first_free_index dfltH).generation⟩
          pool := p.grown.pool ++ [v]
          pool_indices := p.grown.pool_indices ++ [p.grown.first_free_index] }) :=
  rfl

theorem grown_first_free_lt (p : ObjectPool T) :
    p.grown.first_free_index < p.grown.roster.length := by
  unfold grown
  by_cases hg : p.roster.length ≤ p.first_free_index
  · simp [hg, expand_roster]
  · simp only [hg, if_false]
    omega

theorem grown_pool (p : ObjectPool T) : p.grown.pool = p.pool := by
  unfold grown expand_roster
  split <;> rfl

theorem grown_pool_indices (p : ObjectPool T) : p.grown.pool_indices = p.pool_indices := by
  unfold grown expand_roster
  split <;> rfl

theorem grown_roster_length_le (p : ObjectPool T) :
    p.roster.length ≤ p.grown.roster.length := by
  unfold grown expand_roster
  split
  · simp
  · exact Nat.le_refl _

theorem grown_roster_getD (p : ObjectPool T) (i : Nat) (hi : i < p.roster.length) :
    p.grown.roster.getD i dfltH = p.roster.getD i dfltH := by
  unfold grown expand_roster
  split
  · exact getD_append_lt _ _ _ _ hi
  · rfl

end ObjectPool

section FreeChainLemmas

theorem FreeChain.nodes_lt {roster : List Handle} {occ l : List Nat} {n : Nat}
    (hc : FreeChain roster occ n l) : ∀ m ∈ l, m < roster.length := by
  induction hc with
  | out => intro m hm; cases hm
  | step n l hn hno hnl hrest ih =>
    intro m hm
    rcases List.mem_cons.mp hm with hm | hm
    · exact hm ▸ hn
    · exact ih m hm

theorem FreeChain.nodes_not_occ {roster : List Handle} {occ l : List Nat} {n : Nat}
    (hc : FreeChain roster occ n l) : ∀ m ∈ l, m ∉ occ := by
  induction hc with
  | out => intro m hm; cases hm
  | step n l hn hno hnl hrest ih =>
    intro m hm
    rcases List.mem_cons.mp hm with hm | hm
    · exact hm ▸ hno
    · exact ih m hm

/-- A free chain is unaffected by changes that keep the roster length,
keep the entries at the chain's own nodes, and keep its nodes
unoccupied. -/
theorem FreeChain.stable {roster roster2 : List Handle} {occ occ2 l : List Nat} {n : Nat}
    (hc : FreeChain roster occ n l)
    (hlen : roster2.length = roster.length)
    (hget : ∀ a ∈ l, roster2.getD a dfltH = roster.getD a dfltH)
    (hocc2 : ∀ a ∈ l, a ∉ occ2) :
    FreeChain roster2 occ2 n l := by
  induction hc with
  | out => exact FreeChain.out
  | step n l hn hno hnl hrest ih =>
    refine FreeChain.step n l (hlen ▸ hn) (hocc2 n (List.mem_cons_self n l)) hnl ?_
    rw [hget n (List.mem_cons_self n l)]
    exact ih (fun a ha => hget a (List.mem_cons_of_mem n ha))
      (fun a ha => hocc2 a (List.mem_cons_of_mem n ha))

/-- A free chain whose head is a real roster position starts with that
position as an unoccupied node. -/
theorem FreeChain.head {roster : List Handle} {occ l : List Nat} {n : Nat}
    (hc : FreeChain roster occ n l) (hn : n < roster.length)
    (hb : roster.length ≤ SIZE_MAX) :
    ∃ l2, l = n :: l2 ∧ n ∉ occ ∧ n ∉ l2 ∧
      FreeChain roster occ (roster.getD n dfltH).index l2 := by
  cases hc with
  | out =>
    have : SIZE_MAX < SIZE_MAX := Nat.lt_of_lt_of_le hn hb
    omega
  | step n l2 hn2 hno hnl hrest => exact ⟨l2, rfl, hno, hnl, hrest⟩

end FreeChainLemmas

section InvLemmas

open ObjectPool

variable {T : Type}

theorem FreeChain.out_eq {roster : List Handle} {occ l : List Nat} {n : Nat}
    (hc : FreeChain roster occ n l) (hn : roster.length ≤ n) :
    n = SIZE_MAX ∧ l = [] := by
  cases hc with
  | out => exact ⟨rfl, rfl⟩
  | step n l hlt _ _ _ => omega

theorem occ_lt {p : ObjectPool T} (hp : Inv p) :
    ∀ r ∈ p.pool_indices, r < p.roster.length := by
  intro r hr
  obtain ⟨j, hj, hje⟩ := mem_getD _ r 0 hr
  have h1 := (hp.hocc j hj).1
  rw [hje] at h1
  exact h1

theorem occ_back {p : ObjectPool T} (hp : Inv p) :
    ∀ r ∈ p.pool_indices,
      ∃ j, j < p.pool_indices.length ∧ p.pool_indices.getD j 0 = r ∧
        (p.roster.getD r dfltH).index = j := by
  intro r hr
  obtain ⟨j, hj, hje⟩ := mem_getD _ r 0 hr
  have h2 := (hp.hocc j hj).2
  rw [hje] at h2
  exact ⟨j, hj, hje, h2⟩

theorem pi_inj {p : ObjectPool T} (hp : Inv p) {j1 j2 : Nat}
    (h1 : j1 < p.pool_indices.length) (h2 : j2 < p.pool_indices.length)
    (he : p.pool_indices.getD j1 0 = p.pool_indices.getD j2 0) : j1 = j2 := by
  have e1 := (hp.hocc j1 h1).2
  have e2 := (hp.hocc j2 h2).2
  rw [he, e2] at e1
  exact e1.symm

theorem inv_empty : Inv (ObjectPool.empty T) :=
  ⟨rfl, fun j hj => absurd hj (by simp [ObjectPool.empty]),
    ⟨[], FreeChain.out⟩, by simp [ObjectPool.empty, SIZE_MAX]⟩

theorem grown_ffi_not_occ {p : ObjectPool T} (hp : Inv p) :
    p.grown.first_free_index ∉ p.pool_indices := by
  unfold grown
  by_cases hg : p.roster.length ≤ p.first_free_index
  · rw [if_pos hg]
    show p.roster.length ∉ p.pool_indices
    intro hmem
    exact absurd (occ_lt hp _ hmem) (by omega)
  · rw [if_neg hg]
    obtain ⟨l, hc⟩ := hp.hchain
    obtain ⟨l2, _, hno, _, _⟩ := hc.head (by omega) hp.hbound
    exact hno

theorem grown_inv {p : ObjectPool T} (hp : Inv p) (hb : p.roster.length < SIZE_MAX) :
    Inv p.grown := by
  by_cases hg : p.roster.length ≤ p.first_free_index
  · obtain ⟨l, hc⟩ := hp.hchain
    obtain ⟨hffS, hlnil⟩ := hc.out_eq hg
    have hgr : p.grown = p.expand_roster := by unfold grown; rw [if_pos hg]
    rw [hgr]
    refine ⟨hp.hlen, ?_, ?_, ?_⟩
    · intro j hj
      have h1 := (hp.hocc j hj).1
      have h2 := (hp.hocc j hj).2
      refine ⟨?_, ?_⟩
      · show p.pool_indices.getD j 0 < (p.roster ++ [(⟨p.first_free_index, 0⟩ : Handle)]).length
        have hL : (p.roster ++ [(⟨p.first_free_index, 0⟩ : Handle)]).length =
            p.roster.length + 1 := by simp
        omega
      · show ((p.roster ++ [(⟨p.first_free_index, 0⟩ : Handle)]).getD
            (p.pool_indices.getD j 0) dfltH).index = j
        rw [getD_append_lt _ _ _ _ h1]
        exact h2
    · refine ⟨[p.roster.length], ?_⟩
      show FreeChain (p.roster ++ [⟨p.first_free_index, 0⟩]) p.pool_indices
        p.roster.length [p.roster.length]
      refine FreeChain.step _ _ (by simp) ?_ (by simp) ?_
      · intro hmem
        exact absurd (occ_lt hp _ hmem) (by omega)
      · rw [getD_append_len]
        show FreeChain _ _ p.first_free_index []
        rw [hffS]
        exact FreeChain.out
    · show (p.roster ++ [(⟨p.first_free_index, 0⟩ : Handle)]).length ≤ SIZE_MAX
      simp
      omega
  · have hgr : p.grown = p := by unfold grown; rw [if_neg hg]
    rw [hgr]
    exact hp

theorem inv_emplace {p : ObjectPool T} (v : T) (hp : Inv p)
    (hb : p.roster.length < SIZE_MAX) : Inv (p.emplace v).2 := by
  have hg : Inv p.grown := grown_inv hp hb
  have hff : p.grown.first_free_index < p.grown.roster.length := grown_first_free_lt p
  obtain ⟨l, hc⟩ := hg.hchain
  obtain ⟨l2, hl, hno, hnl2, hrest⟩ := hc.head hff hg.hbound
  rw [emplace_unfold]
  refine ⟨?_, ?_, ?_, ?_⟩
  · show (p.grown.pool ++ [v]).length = (p.grown.pool_indices ++ [p.grown.first_free_index]).length
    simp [hg.hlen]
  · intro j hj
    have hj2 : j < p.grown.pool_indices.length + 1 := by simpa using hj
    by_cases hjl : j < p.grown.pool_indices.length
    · have h1 := (hg.hocc j hjl).1
      have h2 := (hg.hocc j hjl).2
      have hne : p.grown.pool_indices.getD j 0 ≠ p.grown.first_free_index :=
        fun he => hno (he ▸ getD_mem _ _ _ hjl)
      show (p.grown.pool_indices ++ [p.grown.first_free_index]).getD j 0 <
          (p.grown.roster.set p.grown.first_free_index _).length ∧
        ((p.grown.roster.set p.grown.first_free_index _).getD
          ((p.grown.pool_indices ++ [p.grown.first_free_index]).getD j 0) dfltH).index = j
      rw [getD_append_lt _ _ _ _ hjl]
      refine ⟨by simpa using h1, ?_⟩
      rw [getD_set_ne _ _ _ _ _ (fun e => hne e.symm)]
      exact h2
    · have hj3 : j = p.grown.pool_indices.length := by omega
      subst hj3
      show (p.grown.pool_indices ++ [p.grown.first_free_index]).getD
          p.grown.pool_indices.length 0 <
          (p.grown.roster.set p.grown.first_free_index _).length ∧
        ((p.grown.roster.set p.grown.first_free_index _).getD
          ((p.grown.pool_indices ++ [p.grown.first_free_index]).getD
            p.grown.pool_indices.length 0) dfltH).index = p.grown.pool_indices.length
      rw [getD_append_len]
      refine ⟨by simpa using hff, ?_⟩
      rw [getD_set_self _ _ _ _ hff]
      show p.grown.pool.length = p.grown.pool_indices.length
      exact hg.hlen
  · refine ⟨l2, ?_⟩
    apply hrest.stable
    · simp
    · intro a ha
      exact getD_set_ne _ _ _ _ _ (fun e => hnl2 (e ▸ ha))
    · intro a ha
      have h1 : a ∉ p.grown.pool_indices := hrest.nodes_not_occ a ha
      have h2 : a ≠ p.grown.first_free_index := fun e => hnl2 (e ▸ ha)
      simp only [List.mem_append, List.mem_singleton]
      rintro (hmem | hmem)
      · exact h1 hmem
      · exact h2 hmem
  · show (p.grown.roster.set p.grown.first_free_index _).length ≤ SIZE_MAX
    simpa using hg.hbound

theorem remove_pool_eq [Inhabited T] (p : ObjectPool T) (h : Handle)
    (hv : p.isValid h = true) :
    (p.remove h).pool =
      (p.pool.set (p.roster.getD h.index dfltH).index
        (p.pool.getD (p.pool.length - 1) default)).dropLast := by
  simp [remove, hv]

theorem remove_pool_indices_eq [Inhabited T] (p : ObjectPool T) (h : Handle)
    (hv : p.isValid h = true) :
    (p.remove h).pool_indices =
      (p.pool_indices.set (p.roster.getD h.index dfltH).index
        (p.pool_indices.getD (p.pool.length - 1) 0)).dropLast := by
  simp [remove, hv]

theorem remove_roster_eq [Inhabited T] (p : ObjectPool T) (h : Handle)
    (hv : p.isValid h = true) :
    (p.remove h).roster =
      (p.roster.set (p.pool_indices.getLastD 0)
          ⟨(p.roster.getD h.index dfltH).index,
            (p.roster.getD (p.pool_indices.getLastD 0) dfltH).generation⟩).set h.index
        ⟨p.first_free_index,
          ((p.roster.set (p.pool_indices.getLastD 0)
              ⟨(p.roster.getD h.index dfltH).index,
                (p.roster.getD (p.pool_indices.getLastD 0) dfltH).generation⟩).getD
            h.index dfltH).generation + 1⟩ := by
  simp [remove, hv]

theorem inv_remove [Inhabited T] {p : ObjectPool T} (h : Handle) (hp : Inv p)
    (hcon : p.isValid h = true → h.index ∈ p.pool_indices) : Inv (p.remove h) := by
  by_cases hv : p.isValid h
  · have hoccm := hcon hv
    obtain ⟨k, hk, hkr, hback⟩ := occ_back hp _ hoccm
    have hplen := hp.hlen
    have hrlt : h.index < p.roster.length := ((isValid_iff p h).mp hv).1
    have hlastlt : p.pool_indices.length - 1 < p.pool_indices.length := by omega
    have hrmlt : p.pool_indices.getD (p.pool_indices.length - 1) 0 < p.roster.length :=
      (hp.hocc _ hlastlt).1
    have hrmback : (p.roster.getD (p.pool_indices.getD (p.pool_indices.length - 1) 0)
        dfltH).index = p.pool_indices.length - 1 := (hp.hocc _ hlastlt).2
    have hrm2 : p.pool_indices.getLastD 0 =
        p.pool_indices.getD (p.pool_indices.length - 1) 0 := getLastD_eq_getD _ _
    have hrm3 : p.pool_indices.getD (p.pool.length - 1) 0 =
        p.pool_indices.getD (p.pool_indices.length - 1) 0 := by rw [hplen]
    -- shapes of the three updated sequences
    have hP : (p.remove h).pool =
        (p.pool.set k (p.pool.getD (p.pool.length - 1) default)).dropLast := by
      rw [remove_pool_eq p h hv, hback]
    have hI : (p.remove h).pool_indices =
        (p.pool_indices.set k
          (p.pool_indices.getD (p.pool_indices.length - 1) 0)).dropLast := by
      rw [remove_pool_indices_eq p h hv, hback, hrm3]
    have hIlen : (p.remove h).pool_indices.length = p.pool_indices.length - 1 := by
      rw [hI]
      simp
    have hIget : ∀ j, j < p.pool_indices.length - 1 →
        (p.remove h).pool_indices.getD j 0 =
          (if j = k then p.pool_indices.getD (p.pool_indices.length - 1) 0
            else p.pool_indices.getD j 0) := by
      intro j hj
      rw [hI, getD_dropLast _ _ _ (by simpa using hj)]
      by_cases hjk : j = k
      · subst hjk
        rw [if_pos rfl, getD_set_self _ _ _ _ hk]
      · rw [if_neg hjk, getD_set_ne _ _ _ _ _ (fun e => hjk e.symm)]
    -- the moved slot differs from the removed slot except when the removed
    -- element is the last one
    have hrmne : k < p.pool_indices.length - 1 →
        p.pool_indices.getD (p.pool_indices.length - 1) 0 ≠ h.index := by
      intro hklt he
      rw [he] at hrmback
      rw [hback] at hrmback
      omega
    -- generation-irrelevant view of the removed-state roster
    have hR : ∀ i, i ≠ h.index → i ≠ p.pool_indices.getD (p.pool_indices.length - 1) 0 →
        (p.remove h).roster.getD i dfltH = p.roster.getD i dfltH := by
      intro i hi1 hi2
      rw [remove_roster_eq p h hv]
      rw [getD_set_ne _ _ _ _ _ (fun e => hi1 e.symm)]
      rw [getD_set_ne _ _ _ _ _ (fun e => hi2 (by rw [← e, hrm2]))]
    have hRrm : p.pool_indices.getD (p.pool_indices.length - 1) 0 ≠ h.index →
        ((p.remove h).roster.getD
          (p.pool_indices.getD (p.pool_indices.length - 1) 0) dfltH).index = k := by
      intro hne
      rw [remove_roster_eq p h hv]
      rw [getD_set_ne _ _ _ _ _ (fun e => hne e.symm)]
      rw [hrm2, getD_set_self _ _ _ _ hrmlt, hback]
    have hRself : ((p.remove h).roster.getD h.index dfltH).index = p.first_free_index := by
      rw [remove_roster_eq p h hv]
      rw [getD_set_self _ _ _ _ (by simpa using hrlt)]
    have hRlen : (p.remove h).roster.length = p.roster.length := remove_roster_length p h
    refine ⟨?_, ?_, ?_, ?_⟩
    · rw [hP, hI]
      simp
      omega
    · intro j hj
      rw [hIlen] at hj
      rw [hIget j hj]
      by_cases hjk : j = k
      · subst hjk
        rw [if_pos rfl]
        have hne := hrmne hj
        refine ⟨by rw [hRlen]; exact hrmlt, ?_⟩
        rw [hRrm hne]
      · rw [if_neg hjk]
        have hj2 : j < p.pool_indices.length := by omega
        have h1 := (hp.hocc j hj2).1
        have h2 := (hp.hocc j hj2).2
        have hne1 : p.pool_indices.getD j 0 ≠ h.index := by
          intro he
          rw [← hkr] at he
          exact hjk (pi_inj hp hj2 hk he)
        have hne2 : p.pool_indices.getD j 0 ≠
            p.pool_indices.getD (p.pool_indices.length - 1) 0 := by
          intro he
          have := pi_inj hp hj2 hlastlt he
          omega
        refine ⟨by rw [hRlen]; exact h1, ?_⟩
        rw [hR _ hne1 hne2]
        exact h2
    · obtain ⟨l, hc⟩ := hp.hchain
      have hmemI : ∀ x ∈ (p.remove h).pool_indices, x ∈ p.pool_indices ∧ x ≠ h.index := by
        intro x hx
        obtain ⟨j, hjl, hje⟩ := mem_getD _ x 0 hx
        rw [hIlen] at hjl
        rw [hIget j hjl] at hje
        by_cases hjk : j = k
        · rw [if_pos hjk] at hje
          subst hje
          exact ⟨getD_mem _ _ _ hlastlt, hrmne (hjk ▸ hjl)⟩
        · rw [if_neg hjk] at hje
          subst hje
          refine ⟨getD_mem _ _ _ (by omega), ?_⟩
          intro he
          rw [← hkr] at he
          exact hjk (pi_inj hp (by omega) hk he)
      refine ⟨h.index :: l, ?_⟩
      rw [remove_first_free p h hv]
      refine FreeChain.step _ _ (by rw [hRlen]; exact hrlt) ?_ ?_ ?_
      · intro hmem
        exact (hmemI _ hmem).2 rfl
      · intro hmem
        exact (hc.nodes_not_occ _ hmem) hoccm
      · rw [hRself]
        refine hc.stable (by rw [hRlen]) ?_ ?_
        · intro a ha
          have hna : a ∉ p.pool_indices := hc.nodes_not_occ a ha
          refine hR a (fun e => hna (e ▸ hoccm)) (fun e => hna ?_)
          rw [e]
          exact getD_mem _ _ _ hlastlt
        · intro a ha
          intro hmem
          exact (hc.nodes_not_occ a ha) (hmemI _ hmem).1
    · rw [hRlen]
      exact hp.hbound
  · rw [remove_of_invalid p h (by simpa using hv)]
    exact hp

theorem inv_reachable [Inhabited T] {p : ObjectPool T} (hr : Reachable p) : Inv p := by
  induction hr with
  | empty => exact inv_empty
  | ins p v hp hb ih => exact inv_emplace v ih hb
  | rem p h hp hcon ih => exact inv_remove h ih hcon

theorem applyOp_roster_length_le [Inhabited T] (p : ObjectPool T) (op : Op T) :
    p.roster.length ≤ (applyOp p op).roster.length := by
  cases op with
  | insert v =>
    show p.roster.length ≤ ((p.emplace v).2).roster.length
    rw [emplace_unfold]
    show p.roster.length ≤ (p.grown.roster.set p.grown.first_free_index _).length
    rw [List.length_set]
    exact grown_roster_length_le p
  | remove h => exact Nat.le_of_eq (remove_roster_length p h).symm

theorem remove_roster_getD_untouched [Inhabited T] (p : ObjectPool T) (h : Handle)
    (hv : p.isValid h = true) (i : Nat) (hi1 : i ≠ h.index)
    (hi2 : i ≠ p.pool_indices.getLastD 0) :
    (p.remove h).roster.getD i dfltH = p.roster.getD i dfltH := by
  rw [remove_roster_eq p h hv, getD_set_ne _ _ _ _ _ (fun e => hi1 e.symm),
    getD_set_ne _ _ _ _ _ (fun e => hi2 e.symm)]

theorem remove_roster_getD_moved [Inhabited T] (p : ObjectPool T) (h : Handle)
    (hv : p.isValid h = true) (hne : p.pool_indices.getLastD 0 ≠ h.index)
    (hlt : p.pool_indices.getLastD 0 < p.roster.length) :
    (p.remove h).roster.getD (p.pool_indices.getLastD 0) dfltH =
      ⟨(p.roster.getD h.index dfltH).index,
        (p.roster.getD (p.pool_indices.getLastD 0) dfltH).generation⟩ := by
  rw [remove_roster_eq p h hv, getD_set_ne _ _ _ _ _ (fun e => hne e.symm),
    getD_set_self _ _ _ _ hlt]

theorem pi_nodup {p : ObjectPool T} (hp : Inv p) : p.pool_indices.Nodup := by
  rw [List.nodup_iff_injective_get]
  intro i j he
  have hde : p.pool_indices.getD i 0 = p.pool_indices.getD j 0 := by
    rw [List.getD_eq_getElem _ _ i.isLt, List.getD_eq_getElem _ _ j.isLt]
    simpa using he
  exact Fin.ext (pi_inj hp i.isLt j.isLt hde)

theorem access_of_valid [Inhabited T] (p : ObjectPool T) (h : Handle)
    (hv : p.isValid h = true) :
    p.access h = some (p.pool.getD (p.roster.getD h.index dfltH).index default) := by
  unfold ObjectPool.access
  rw [hv]
  simp

end InvLemmas

section Claims

open ObjectPool

variable {T : Type}

/-- C1.  Round-trip: for every pool state and every value v, inserting v
with ObjectPool::emplace and immediately dereferencing the returned handle
with ObjectPool::operator[] yields the stored value v.  Proved for every
state, which covers in particular every reachable state. -/
theorem claim_C1_roundtrip [Inhabited T] (p : ObjectPool T) (v : T) :
    (p.emplace v).2.access (p.emplace v).1 = some v := by
  have hlt := grown_first_free_lt p
  rw [emplace_unfold]
  have hgetD : (p.grown.roster.set p.grown.first_free_index
      ⟨p.grown.pool.length,
        (p.grown.roster.getD p.grown.first_free_index dfltH).generation⟩).getD
      p.grown.first_free_index dfltH =
      ⟨p.grown.pool.length,
        (p.grown.roster.getD p.grown.first_free_index dfltH).generation⟩ :=
    getD_set_self _ _ _ _ hlt
  have hval : ObjectPool.isValid
      { first_free_index := (p.grown.roster.getD p.grown.first_free_index dfltH).index
        roster := p.grown.roster.set p.grown.first_free_index
          ⟨p.grown.pool.length,
            (p.grown.roster.getD p.grown.first_free_index dfltH).generation⟩
        pool := p.grown.pool ++ [v]
        pool_indices := p.grown.pool_indices ++ [p.grown.first_free_index] }
      ⟨p.grown.first_free_index,
        (p.grown.roster.getD p.grown.first_free_index dfltH).generation⟩ = true := by
    rw [isValid_iff]
    constructor
    · simpa using hlt
    · rw [hgetD]
  unfold access
  rw [hval]
  simp only [if_true, hgetD]
  rw [getD_append_len]

/-- C7.  Removal of an invalid handle is a silent no-op: for every pool
state and every handle with isValid false, ObjectPool::remove returns the
state completely unchanged (free-list head, roster, dense storage and
back-mapping), and being a total function it raises no error. -/
theorem claim_C7_remove_invalid_noop [Inhabited T] (p : ObjectPool T) (h : Handle)
    (hv : p.isValid h = false) : p.remove h = p :=
  remove_of_invalid p h hv

/-- Closed witness for C7 at a concrete input: the default handle is
invalid on the empty pool and removing it changes nothing. -/
theorem claim_C7_remove_invalid_noop_witness :
    (empty Nat).isValid ⟨0, 0⟩ = false ∧ (empty Nat).remove ⟨0, 0⟩ = empty Nat :=
  ⟨by decide, claim_C7_remove_invalid_noop (empty Nat) ⟨0, 0⟩ (by decide)⟩

/-- C8.  Idempotent removal: for every pool state and every handle,
removing it twice in succession yields exactly the same state as removing
it once; the second ObjectPool::remove call is a no-op. -/
theorem claim_C8_remove_idempotent [Inhabited T] (p : ObjectPool T) (h : Handle) :
    (p.remove h).remove h = p.remove h :=
  remove_of_invalid _ _ (isValid_remove_self p h)

/-- C9.  getPoolIndex is the inverse lookup: on a valid handle it returns
the dense position stored in the roster slot, and dense storage at that
position is exactly the value operator[] returns; on an invalid handle it
returns the SIZE_MAX not-found sentinel. -/
theorem claim_C9_inverse_lookup [Inhabited T] (p : ObjectPool T) (h : Handle) :
    (p.isValid h = true →
      p.getPoolIndex h = (p.roster.getD h.index dfltH).index ∧
        p.access h = some (p.pool.getD (p.getPoolIndex h) default)) ∧
      (p.isValid h = false → p.getPoolIndex h = SIZE_MAX) := by
  constructor
  · intro hv
    unfold getPoolIndex access
    rw [hv]
    simp
  · intro hv
    unfold getPoolIndex
    rw [hv]
    simp

/-- Closed witness for C9 at concrete inputs: a pool holding one value,
probed with its valid handle and with a stale-generation handle. -/
theorem claim_C9_inverse_lookup_witness :
    (((empty Nat).emplace 5).2.getPoolIndex ⟨0, 0⟩ =
        (((empty Nat).emplace 5).2.roster.getD 0 dfltH).index ∧
      ((empty Nat).emplace 5).2.access ⟨0, 0⟩ =
        some (((empty Nat).emplace 5).2.pool.getD
          (((empty Nat).emplace 5).2.getPoolIndex ⟨0, 0⟩) default)) ∧
      ((empty Nat).emplace 5).2.getPoolIndex ⟨0, 1⟩ = SIZE_MAX :=
  ⟨(claim_C9_inverse_lookup ((empty Nat).emplace 5).2 ⟨0, 0⟩).1 (by decide),
    (claim_C9_inverse_lookup ((empty Nat).emplace 5).2 ⟨0, 1⟩).2 (by decide)⟩

/-- C10.  LIFO slot reuse: after removing a valid handle, the immediately
following insertion returns a handle whose roster index equals the removed
handle index and whose generation is strictly greater (by one), and the
old handle is still invalid in the resulting state. -/
theorem claim_C10_lifo_reuse [Inhabited T] (p : ObjectPool T) (h : Handle) (v : T)
    (hv : p.isValid h = true) :
    ((p.remove h).emplace v).1.index = h.index ∧
      h.generation < ((p.remove h).emplace v).1.generation ∧
      ((p.remove h).emplace v).2.isValid h = false := by
  have hff : (p.remove h).first_free_index = h.index := remove_first_free p h hv
  have hlen : (p.remove h).roster.length = p.roster.length := remove_roster_length p h
  have hidx : h.index < p.roster.length := ((isValid_iff p h).mp hv).1
  have hgrown : (p.remove h).grown = p.remove h := by
    unfold grown
    rw [hff, hlen, if_neg (by omega)]
  have hgen : ((p.remove h).roster.getD h.index dfltH).generation = h.generation + 1 :=
    remove_roster_gen_self p h hv
  rw [emplace_unfold, hgrown, hff]
  refine ⟨rfl, ?_, ?_⟩
  · show h.generation < ((p.remove h).roster.getD h.index dfltH).generation
    rw [hgen]
    omega
  · apply isValid_eq_false_of_gen_ne
    show (((p.remove h).roster.set h.index _).getD h.index dfltH).generation ≠ h.generation
    rw [getD_set_self _ _ _ _ (by rw [hlen]; exact hidx)]
    show ((p.remove h).roster.getD h.index dfltH).generation ≠ h.generation
    rw [hgen]
    omega

/-- Closed witness for C10 at a concrete input: remove the only element of
a one-element pool and insert again; the new handle reuses slot 0 with
generation 1 and the old handle stays invalid. -/
theorem claim_C10_lifo_reuse_witness :
    ((((empty Nat).emplace 5).2.remove ⟨0, 0⟩).emplace 7).1.index = 0 ∧
      (0 : Nat) < ((((empty Nat).emplace 5).2.remove ⟨0, 0⟩).emplace 7).1.generation ∧
      ((((empty Nat).emplace 5).2.remove ⟨0, 0⟩).emplace 7).2.isValid ⟨0, 0⟩ = false :=
  claim_C10_lifo_reuse ((empty Nat).emplace 5).2 ⟨0, 0⟩ 7 (by decide)

/-- Generation counters stored in the roster never decrease across a
single emplace or remove call, and the roster never shrinks. -/
theorem applyOp_roster_gen_le [Inhabited T] (p : ObjectPool T) (op : Op T) (i : Nat) :
    (p.roster.getD i dfltH).generation ≤ ((applyOp p op).roster.getD i dfltH).generation := by
  cases op with
  | insert v =>
    show (p.roster.getD i dfltH).generation ≤ (((p.emplace v).2).roster.getD i dfltH).generation
    rw [emplace_unfold]
    show (p.roster.getD i dfltH).generation ≤
      ((p.grown.roster.set p.grown.first_free_index
        ⟨p.grown.pool.length,
          (p.grown.roster.getD p.grown.first_free_index dfltH).generation⟩).getD
        i dfltH).generation
    rw [getD_set_gen_eq]
    by_cases hi : i < p.roster.length
    · rw [grown_roster_getD p i hi]
    · rw [List.getD_eq_default _ _ (Nat.le_of_not_lt hi)]
      exact Nat.zero_le _
  | remove h =>
    show (p.roster.getD i dfltH).generation ≤ ((p.remove h).roster.getD i dfltH).generation
    by_cases hv : p.isValid h
    · by_cases hih : i = h.index
      · subst hih
        rw [remove_roster_gen_self p h hv, ((isValid_iff p h).mp hv).2]
        omega
      · rw [remove_roster_gen p h hv i hih]
    · rw [remove_of_invalid p h (by simpa using hv)]

/-- Generation counters stored in the roster never decrease across any
sequence of emplace and remove calls. -/
theorem applyOps_roster_gen_le [Inhabited T] (p : ObjectPool T) (ops : List (Op T)) (i : Nat) :
    (p.roster.getD i dfltH).generation ≤ ((applyOps p ops).roster.getD i dfltH).generation := by
  induction ops generalizing p with
  | nil => exact Nat.le_refl _
  | cons op ops ih =>
    exact Nat.le_trans (applyOp_roster_gen_le p op i) (ih (applyOp p op))

/-- C2.  Permanent invalidation: for every pool state and every handle h
valid in it, after ObjectPool::remove h the handle is invalid and
operator[] returns absence, and this stays true after every further
sequence of emplace and remove calls; no later insertion revives h.
Proved for every state, which covers in particular every reachable
state. -/
theorem claim_C2_permanent_invalidation [Inhabited T] (p : ObjectPool T) (h : Handle)
    (hv : p.isValid h = true) (ops : List (Op T)) :
    (applyOps (p.remove h) ops).isValid h = false ∧
      (applyOps (p.remove h) ops).access h = none := by
  have hgen : h.generation + 1 ≤
      ((applyOps (p.remove h) ops).roster.getD h.index dfltH).generation := by
    calc h.generation + 1
        = ((p.remove h).roster.getD h.index dfltH).generation :=
          (remove_roster_gen_self p h hv).symm
      _ ≤ _ := applyOps_roster_gen_le _ ops h.index
  have hval : (applyOps (p.remove h) ops).isValid h = false :=
    isValid_eq_false_of_gen_ne _ _ (by omega)
  refine ⟨hval, ?_⟩
  unfold access
  rw [hval]
  simp

/-- C3.  Executable record of the makeHandle defect at a concrete failing
input: after inserting 1 and 2 and removing the first handle, dense
position 0 is occupied (by the value 2, owned by roster slot 1 since the
back-mapping is [1]), yet makeHandle 0 returns the handle (0, 0), built
from the dense index 0 itself instead of the owning roster index
pool_indices[0] = 1; that handle is invalid and dereferences to nothing,
while the actual handle referring to dense position 0 is (1, 0), which is
valid and whose getPoolIndex is 0.  This contradicts the claim, and the
code contradicts its own doc comment, which promises a handle to the
object currently at pool[index]. -/
theorem claim_C3_makeHandle_bug :
    0 < poolAfterSwap.pool.length ∧
      poolAfterSwap.pool_indices = [1] ∧
      poolAfterSwap.makeHandle 0 = ⟨0, 0⟩ ∧
      poolAfterSwap.isValid (poolAfterSwap.makeHandle 0) = false ∧
      poolAfterSwap.access (poolAfterSwap.makeHandle 0) = none ∧
      poolAfterSwap.isValid ⟨1, 0⟩ = true ∧
      poolAfterSwap.getPoolIndex ⟨1, 0⟩ = 0 ∧
      poolAfterSwap.access ⟨1, 0⟩ = some 2 := by
  decide

/-- C4, counterexample to the claim as stated: the state reached by
emplace(1) then remove((0, 0)) is reachable, the never-issued handle
(0, 1) passes isValid there (slot 0 is free but its generation is 1), yet
the dense index stored in slot 0 is the SIZE_MAX free-list link, which is
not below the dense-storage length — the assertion in operator[] is
violated. -/
theorem claim_C4_counterexample :
    Reachable poolFreedSlot ∧
      poolFreedSlot.isValid ⟨0, 1⟩ = true ∧
      ¬((poolFreedSlot.roster.getD 0 dfltH).index < poolFreedSlot.pool.length) :=
  ⟨Reachable.rem _ ⟨0, 0⟩ (Reachable.ins _ 1 Reachable.empty (by decide)) (by decide),
    by decide, by decide⟩

/-- C4 as amended: in every reachable pool state, a valid handle whose
roster slot is occupied (it appears in the back-mapping, as holds for
every handle issued by emplace and still valid) stores a dense index
below the dense-storage length, so the assertion in operator[] holds and
access returns the element of dense storage at that index. -/
theorem claim_C4_valid_occupied_safe_deref [Inhabited T] (p : ObjectPool T) (h : Handle)
    (hr : Reachable p) (hv : p.isValid h = true) (ho : h.index ∈ p.pool_indices) :
    (p.roster.getD h.index dfltH).index < p.pool.length ∧
      p.access h = some (p.pool.getD (p.roster.getD h.index dfltH).index default) := by
  have hp := inv_reachable hr
  obtain ⟨j, hj, hje, hback⟩ := occ_back hp _ ho
  have hplen := hp.hlen
  exact ⟨by rw [hback]; omega, access_of_valid p h hv⟩

/-- Closed witness for the amended C4 at a concrete input: a pool holding
one value, probed with its issued handle. -/
theorem claim_C4_valid_occupied_safe_deref_witness :
    ((((ObjectPool.empty Nat).emplace 5).2.roster.getD 0 dfltH).index <
        ((ObjectPool.empty Nat).emplace 5).2.pool.length) ∧
      ((ObjectPool.empty Nat).emplace 5).2.access ⟨0, 0⟩ =
        some (((ObjectPool.empty Nat).emplace 5).2.pool.getD
          ((((ObjectPool.empty Nat).emplace 5).2.roster.getD 0 dfltH).index) default) :=
  claim_C4_valid_occupied_safe_deref ((ObjectPool.empty Nat).emplace 5).2 ⟨0, 0⟩
    (Reachable.ins _ 5 Reachable.empty (by decide)) (by decide) (by decide)

/-- C5, counterexample to the claim as stated: poolTwoFree is reachable
(five insertions, then removal of the issued handles (1, 0) and (0, 0));
in it the never-issued handle (0, 1) passes isValid (slot 0 is free at
generation 1, and its free-list link 1 happens to be a live dense
position), the issued handle (4, 0) is valid with a different index, yet
removing (4, 0) changes what access returns for (0, 1) from 5 to 3. -/
theorem claim_C5_counterexample :
    Reachable poolTwoFree ∧
      poolTwoFree.isValid ⟨0, 1⟩ = true ∧
      poolTwoFree.isValid ⟨4, 0⟩ = true ∧
      (⟨0, 1⟩ : Handle).index ≠ (⟨4, 0⟩ : Handle).index ∧
      poolTwoFree.access ⟨0, 1⟩ = some 5 ∧
      (poolTwoFree.remove ⟨4, 0⟩).access ⟨0, 1⟩ = some 3 :=
  ⟨Reachable.rem _ ⟨0, 0⟩ (Reachable.rem _ ⟨1, 0⟩
      (Reachable.ins _ 5 (Reachable.ins _ 4 (Reachable.ins _ 3 (Reachable.ins _ 2
        (Reachable.ins _ 1 Reachable.empty (by decide)) (by decide)) (by decide))
        (by decide)) (by decide)) (by decide)) (by decide),
    by decide, by decide, by decide, by decide, by decide⟩

/-- C5 as amended: in every reachable pool state, handles whose roster
slots are occupied (as holds for every still-valid handle issued by
emplace) are preserved by unrelated operations: inserting a new value, or
removing another such valid handle with a different roster index, leaves
the handle valid and access returning the same value. -/
theorem claim_C5_frame [Inhabited T] (p : ObjectPool T) (h1 : Handle)
    (hr : Reachable p) (hv1 : p.isValid h1 = true) (ho1 : h1.index ∈ p.pool_indices) :
    (∀ v : T, (p.emplace v).2.isValid h1 = true ∧
        (p.emplace v).2.access h1 = p.access h1) ∧
      (∀ h2 : Handle, p.isValid h2 = true → h2.index ∈ p.pool_indices →
        h1.index ≠ h2.index →
          (p.remove h2).isValid h1 = true ∧ (p.remove h2).access h1 = p.access h1) := by
  have hp := inv_reachable hr
  obtain ⟨j1, hj1, hj1e, hb1⟩ := occ_back hp _ ho1
  have hr1lt : h1.index < p.roster.length := occ_lt hp _ ho1
  have hgen1 : (p.roster.getD h1.index dfltH).generation = h1.generation :=
    ((isValid_iff p h1).mp hv1).2
  have hplen := hp.hlen
  have hjpool : j1 < p.pool.length := by omega
  have haccess1 : p.access h1 = some (p.pool.getD j1 default) := by
    rw [access_of_valid p h1 hv1, hb1]
  constructor
  · intro v
    have hffno := grown_ffi_not_occ hp
    have hne : p.grown.first_free_index ≠ h1.index := fun e => hffno (e ▸ ho1)
    have hval : (p.emplace v).2.isValid h1 = true := by
      rw [emplace_unfold, isValid_iff]
      constructor
      · show h1.index < (p.grown.roster.set p.grown.first_free_index _).length
        rw [List.length_set]
        exact Nat.lt_of_lt_of_le hr1lt (grown_roster_length_le p)
      · show ((p.grown.roster.set p.grown.first_free_index _).getD h1.index
            dfltH).generation = h1.generation
        rw [getD_set_ne _ _ _ _ _ hne, grown_roster_getD p _ hr1lt, hgen1]
    have hroster_eq : (p.emplace v).2.roster.getD h1.index dfltH =
        p.roster.getD h1.index dfltH := by
      rw [emplace_unfold]
      show (p.grown.roster.set p.grown.first_free_index _).getD h1.index dfltH = _
      rw [getD_set_ne _ _ _ _ _ hne, grown_roster_getD p _ hr1lt]
    have hpool_eq : (p.emplace v).2.pool = p.pool ++ [v] := by
      rw [emplace_unfold]
      show p.grown.pool ++ [v] = p.pool ++ [v]
      rw [grown_pool]
    refine ⟨hval, ?_⟩
    rw [access_of_valid _ _ hval, hroster_eq, hb1, hpool_eq,
      getD_append_lt _ _ _ _ hjpool, haccess1]
  · intro h2 hv2 ho2 hne12
    obtain ⟨k, hk, hke, hb2⟩ := occ_back hp _ ho2
    have hval : (p.remove h2).isValid h1 = true := by
      rw [isValid_iff]
      refine ⟨by rw [remove_roster_length]; exact hr1lt, ?_⟩
      rw [remove_roster_gen p h2 hv2 h1.index hne12, hgen1]
    refine ⟨hval, ?_⟩
    have hlastlt : p.pool_indices.length - 1 < p.pool_indices.length := by omega
    have hrm2 : p.pool_indices.getLastD 0 =
        p.pool_indices.getD (p.pool_indices.length - 1) 0 := getLastD_eq_getD _ _
    have hrmlt : p.pool_indices.getLastD 0 < p.roster.length := by
      rw [hrm2]
      exact (hp.hocc _ hlastlt).1
    have hrmback : (p.roster.getD (p.pool_indices.getLastD 0) dfltH).index =
        p.pool_indices.length - 1 := by
      rw [hrm2]
      exact (hp.hocc _ hlastlt).2
    have hkj1 : k ≠ j1 := by
      intro e
      apply hne12
      rw [← hj1e, ← e, hke]
    rw [access_of_valid _ _ hval, haccess1]
    by_cases hmove : h1.index = p.pool_indices.getLastD 0
    · have hj1last : j1 = p.pool_indices.length - 1 := by
        have hx := hrmback
        rw [← hmove, hb1] at hx
        exact hx
      have hrmneh2 : p.pool_indices.getLastD 0 ≠ h2.index := by
        rw [← hmove]
        exact hne12
      have hidx : ((p.remove h2).roster.getD h1.index dfltH).index = k := by
        rw [hmove, remove_roster_getD_moved p h2 hv2 hrmneh2 hrmlt]
        exact hb2
      rw [hidx, remove_pool_eq p h2 hv2, hb2]
      have hkpool : k < p.pool.length - 1 := by omega
      rw [getD_dropLast _ _ _ (by simpa using hkpool)]
      rw [getD_set_self _ _ _ _ (by omega)]
      have hll : p.pool.length - 1 = j1 := by omega
      rw [hll]
    · have hidx : ((p.remove h2).roster.getD h1.index dfltH).index = j1 := by
        rw [remove_roster_getD_untouched p h2 hv2 h1.index hne12 hmove]
        exact hb1
      rw [hidx, remove_pool_eq p h2 hv2, hb2]
      have hj1ne_last : j1 ≠ p.pool_indices.length - 1 := by
        intro e
        apply hmove
        rw [hrm2, ← e, ← hj1e]
      have hj1pool : j1 < p.pool.length - 1 := by omega
      rw [getD_dropLast _ _ _ (by simpa using hj1pool)]
      rw [getD_set_ne _ _ _ _ _ hkj1]

/-- Closed witness for the amended C5 at a concrete input: after three
insertions, both inserting 7 and removing the handle (1, 0) leave the
handle (0, 0) valid with an unchanged access result. -/
theorem claim_C5_frame_witness :
    ((poolThree.emplace 7).2.isValid ⟨0, 0⟩ = true ∧
        (poolThree.emplace 7).2.access ⟨0, 0⟩ = poolThree.access ⟨0, 0⟩) ∧
      ((poolThree.remove ⟨1, 0⟩).isValid ⟨0, 0⟩ = true ∧
        (poolThree.remove ⟨1, 0⟩).access ⟨0, 0⟩ = poolThree.access ⟨0, 0⟩) :=
  ⟨(claim_C5_frame poolThree ⟨0, 0⟩
      (Reachable.ins _ 3 (Reachable.ins _ 2 (Reachable.ins _ 1 Reachable.empty
        (by decide)) (by decide)) (by decide)) (by decide) (by decide)).1 7,
    (claim_C5_frame poolThree ⟨0, 0⟩
      (Reachable.ins _ 3 (Reachable.ins _ 2 (Reachable.ins _ 1 Reachable.empty
        (by decide)) (by decide)) (by decide)) (by decide) (by decide)).2 ⟨1, 0⟩
      (by decide) (by decide) (by decide)⟩

/-- C6, counterexample to the claim as stated: after the ten mutating
calls of corruptingOps — each of whose vector accesses is in bounds, so
the corresponding C++ execution is well defined — the back-mapping is
[0, 0]: roster slot 0 owns two dense positions at once, so the number of
occupied slots (1) no longer equals the dense-storage and back-mapping
lengths (2), breaking the claimed occupancy-count invariant. -/
theorem claim_C6_counterexample :
    (applyOps (ObjectPool.empty Nat) corruptingOps).pool_indices = [0, 0] ∧
      ¬(applyOps (ObjectPool.empty Nat) corruptingOps).pool_indices.Nodup ∧
      (applyOps (ObjectPool.empty Nat) corruptingOps).pool_indices.dedup.length ≠
        (applyOps (ObjectPool.empty Nat) corruptingOps).pool.length := by
  decide

/-- C6 as amended: every pool state reachable from the empty pool through
emplace and remove — with remove applied only to handles that are invalid
or refer to occupied slots, as holds for every handle the pool issued, and
emplace applied within the resource model — satisfies the structural
invariants: dense storage and back-mapping have equal length; every
occupied roster slot stores a dense index below the dense-storage length
and the back-mapping at that index points back at the slot; the
back-mapping has no duplicates, so the occupied-slot count equals the
dense-storage length; and no operation ever shrinks the roster.  The
read-only calls operator[], isValid, makeHandle and getPoolIndex do not
change the state, so arbitrary interleavings of them are covered as
well. -/
theorem claim_C6_structural_invariants [Inhabited T] (p : ObjectPool T)
    (hr : Reachable p) :
    p.pool.length = p.pool_indices.length ∧
      (∀ r ∈ p.pool_indices,
        (p.roster.getD r dfltH).index < p.pool.length ∧
          p.pool_indices.getD (p.roster.getD r dfltH).index 0 = r) ∧
      p.pool_indices.Nodup ∧
      p.pool_indices.dedup.length = p.pool.length ∧
      (∀ op : Op T, p.roster.length ≤ (applyOp p op).roster.length) := by
  have hp := inv_reachable hr
  have hnd := pi_nodup hp
  refine ⟨hp.hlen, ?_, hnd, ?_, fun op => applyOp_roster_length_le p op⟩
  · intro r hrm
    obtain ⟨j, hj, hje, hback⟩ := occ_back hp _ hrm
    have hplen := hp.hlen
    rw [hback]
    exact ⟨by omega, hje⟩
  · rw [hnd.dedup, hp.hlen]

/-- Closed witness for the amended C6 at a concrete input: the invariants
at the pool reached by two insertions and one removal, with the occupied
slot 1 and the operation insert 9. -/
theorem claim_C6_structural_invariants_witness :
    poolAfterSwap.pool.length = poolAfterSwap.pool_indices.length ∧
      ((poolAfterSwap.roster.getD 1 dfltH).index < poolAfterSwap.pool.length ∧
        poolAfterSwap.pool_indices.getD
          ((poolAfterSwap.roster.getD 1 dfltH).index) 0 = 1) ∧
      poolAfterSwap.pool_indices.Nodup ∧
      poolAfterSwap.pool_indices.dedup.length = poolAfterSwap.pool.length ∧
      poolAfterSwap.roster.length ≤ (applyOp poolAfterSwap (Op.insert 9)).roster.length :=
  ⟨(claim_C6_structural_invariants poolAfterSwap
      (Reachable.rem _ ⟨0, 0⟩ (Reachable.ins _ 2 (Reachable.ins _ 1 Reachable.empty
        (by decide)) (by decide)) (by decide))).1,
    (claim_C6_structural_invariants poolAfterSwap
      (Reachable.rem _ ⟨0, 0⟩ (Reachable.ins _ 2 (Reachable.ins _ 1 Reachable.empty
        (by decide)) (by decide)) (by decide))).2.1 1 (by decide),
    (claim_C6_structural_invariants poolAfterSwap
      (Reachable.rem _ ⟨0, 0⟩ (Reachable.ins _ 2 (Reachable.ins _ 1 Reachable.empty
        (by decide)) (by decide)) (by decide))).2.2.1,
    (claim_C6_structural_invariants poolAfterSwap
      (Reachable.rem _ ⟨0, 0⟩ (Reachable.ins _ 2 (Reachable.ins _ 1 Reachable.empty
        (by decide)) (by decide)) (by decide))).2.2.2.1,
    (claim_C6_structural_invariants poolAfterSwap
      (Reachable.rem _ ⟨0, 0⟩ (Reachable.ins _ 2 (Reachable.ins _ 1 Reachable.empty
        (by decide)) (by decide)) (by decide))).2.2.2.2 (Op.insert 9)⟩

/-- Closed witness for C2 at a concrete input: the handle of the first
insertion stays invalid across later insertions and removals, including
one that reuses its slot. -/
theorem claim_C2_permanent_invalidation_witness :
    ((empty Nat).emplace 5).2.isValid ⟨0, 0⟩ = true ∧
      (applyOps (((empty Nat).emplace 5).2.remove ⟨0, 0⟩)
          [Op.insert 7, Op.insert 8, Op.remove ⟨0, 1⟩]).isValid ⟨0, 0⟩ = false ∧
      (applyOps (((empty Nat).emplace 5).2.remove ⟨0, 0⟩)
          [Op.insert 7, Op.insert 8, Op.remove ⟨0, 1⟩]).access ⟨0, 0⟩ = none :=
  ⟨by decide,
    (claim_C2_permanent_invalidation ((empty Nat).emplace 5).2 ⟨0, 0⟩ (by decide)
        [Op.insert 7, Op.insert 8, Op.remove ⟨0, 1⟩]).1,
    (claim_C2_permanent_invalidation ((empty Nat).emplace 5).2 ⟨0, 0⟩ (by decide)
        [Op.insert 7, Op.insert 8, Op.remove ⟨0, 1⟩]).2⟩

end Claims

end Yks
